import Mathlib

/-!
Verification development for `LogSaver.py` (UMN-CMS/LogSaver).

The program is shallowly embedded here.  Python strings are modelled as
`List Char`; the construction-time clock `datetime.now()` is modelled as a
`Nat` counting whole seconds since 1970-01-01 00:00:00 of the naive local
timeline.  `os.path.normpath`, `os.path.split`, `tempfile.mkdtemp`,
`shutil.rmtree` and the subprocess layer are modelled explicitly below,
following the CPython `posixpath` implementations.
-/

set_option maxRecDepth 4000

/-- Decimal digit character for `n % 10`, written as an if-chain so that the
lemmas below can reason by `split_ifs`. -/
def digitChar (n : Nat) : Char :=
  if n = 0 then '0'
  else if n = 1 then '1'
  else if n = 2 then '2'
  else if n = 3 then '3'
  else if n = 4 then '4'
  else if n = 5 then '5'
  else if n = 6 then '6'
  else if n = 7 then '7'
  else if n = 8 then '8'
  else '9'

/-- Fuelled decimal printer: digits of `n`, most significant first. -/
def natDigitsCore : Nat → Nat → List Char
  | 0, _ => []
  | fuel + 1, n =>
    if n < 10 then [digitChar n]
    else natDigitsCore fuel (n / 10) ++ [digitChar (n % 10)]

/-- Decimal digits of `n`, most significant first. -/
def natDigits (n : Nat) : List Char :=
  natDigitsCore (n + 1) n

/-- Zero-pad the decimal form of `n` on the left to width `w`; this is the
behaviour of `strftime` field formatting for the fields used by the program. -/
def padZ (w n : Nat) : List Char :=
  List.replicate (w - (natDigits n).length) '0' ++ natDigits n

/-- Civil (proleptic Gregorian) date for a day count since 1970-01-01,
via the standard days-to-civil algorithm.  This models the calendar used by
Python's `datetime`. -/
def civilFromDays (z : Nat) : Nat × Nat × Nat :=
  let zz := z + 719468
  let era := zz / 146097
  let doe := zz % 146097
  let yoe := (doe - doe / 1460 + doe / 36524 - doe / 146096) / 365
  let doy := doe - (365 * yoe + yoe / 4 - yoe / 100)
  let mp := (5 * doy + 2) / 153
  let d := doy - (153 * mp + 2) / 5 + 1
  let m := if mp < 10 then mp + 3 else mp - 9
  let y := yoe + era * 400 + (if m ≤ 2 then 1 else 0)
  (y, m, d)

/-- The six civil fields (year, month, day, hour, minute, second) of a clock
value `t` in seconds. -/
def civilFields (t : Nat) : Nat × Nat × Nat × Nat × Nat × Nat :=
  let (y, m, d) := civilFromDays (t / 86400)
  (y, m, d, t % 86400 / 3600, t % 86400 % 3600 / 60, t % 60)

/-- Model of `now.strftime("%Y%m%d%H%M%S")` on the clock value `t`. -/
def strftimeYmdHMS (t : Nat) : List Char :=
  let (y, mo, d, h, mi, s) := civilFields t
  padZ 4 y ++ padZ 2 mo ++ padZ 2 d ++ padZ 2 h ++ padZ 2 mi ++ padZ 2 s

/-- Model of `two_days_ago.strftime("%Y-%m-%d %H:%M:%S")` on the clock value
`t`. -/
def strftimeDashed (t : Nat) : List Char :=
  let (y, mo, d, h, mi, s) := civilFields t
  padZ 4 y ++ '-' :: padZ 2 mo ++ '-' :: padZ 2 d ++ ' ' :: padZ 2 h
    ++ ':' :: padZ 2 mi ++ ':' :: padZ 2 s

/-- Split a character list at every occurrence of `c`, exactly like Python's
`path.split('/')` (so `[]` splits to `[[]]` and separators at the ends yield
empty components). -/
def splitOn (c : Char) : List Char → List (List Char)
  | [] => [[]]
  | x :: xs =>
    if x = c then [] :: splitOn c xs
    else
      match splitOn c xs with
      | [] => [[x]]
      | y :: ys => (x :: y) :: ys

/-- Number of leading slashes kept by `posixpath.normpath`: one for `/...`,
two for exactly `//...` that is not `///...`. -/
def countInitialSlashes (s : List Char) : Nat :=
  if s.take 3 = ['/', '/', '/'] then 1
  else if s.take 2 = ['/', '/'] then 2
  else if s.take 1 = ['/'] then 1
  else 0

/-- One step of `posixpath.normpath`'s component loop: skip empty and `.`
components, resolve `..` against the accumulated components. -/
def addComp (isl : Nat) (acc : List (List Char)) (comp : List Char) :
    List (List Char) :=
  if comp = [] ∨ comp = ['.'] then acc
  else if comp ≠ ['.', '.'] ∨ (isl = 0 ∧ acc = []) ∨
      acc.getLast? = some ['.', '.'] then acc ++ [comp]
  else if acc ≠ [] then acc.dropLast
  else acc

/-- Model of `posixpath.normpath` on the `List Char` string model, following
the CPython implementation. -/
def normpathL (p : List Char) : List Char :=
  if p = [] then ['.']
  else
    let isl := countInitialSlashes p
    let comps := splitOn '/' p
    let newComps := comps.foldl (addComp isl) []
    let joined := List.intercalate ['/'] newComps
    let path := List.replicate isl '/' ++ joined
    if path = [] then ['.'] else path

/-- Model of `posixpath.split`: break at the last slash, then strip trailing
slashes from the head unless the head is all slashes. -/
def splitPathL (p : List Char) : List Char × List Char :=
  let tail := (p.reverse.takeWhile (fun ch => ch ≠ '/')).reverse
  let head := p.take (p.length - tail.length)
  let headStripped :=
    if head ≠ [] ∧ head.any (fun ch => ch ≠ '/') then
      (head.reverse.dropWhile (fun ch => ch = '/')).reverse
    else head
  (headStripped, tail)

/-- Boolean token-starts-with test used to state the filter-argument claims. -/
def startsWithTok : List Char → List Char → Bool
  | [], _ => true
  | _ :: _, [] => false
  | a :: p, b :: s => a = b && startsWithTok p s

/-- Model of `' '.join(self.command)` as performed by both `run` methods
before handing the string to the shell. -/
def shellString (command : List (List Char)) : List Char :=
  List.intercalate [' '] command

/-- A plain path component: nonempty, slash-free, and not one of the special
components `.` and `..`. -/
def plainComp (s : List Char) : Prop :=
  s ≠ [] ∧ '/' ∉ s ∧ s ≠ ['.'] ∧ s ≠ ['.', '.']

/-- Name stem handed to `mkdtemp` by `Rsyncer.__init__`:
`"power_mezzanine_tester_logs_" + current_time + "_"` where `current_time`
is `now.strftime("%Y%m%d%H%M%S")`. -/
def tmpNameStem (now : Nat) : List Char :=
  "power_mezzanine_tester_logs_".toList ++ strftimeYmdHMS now ++ ['_']

/-- Model of `tempfile.mkdtemp(prefix=p)`: the OS temp allocator returns
`<temp-root>/<p><unique-suffix>`, where the temp root and the unique suffix
are environment inputs. -/
def mkdtempModel (tmpRoot stem suffix : List Char) : List Char :=
  tmpRoot ++ '/' :: (stem ++ suffix)

/-- State of a `Rsyncer` object after `__init__`. -/
structure Rsyncer where
  rsync_exe : List Char
  remote_location : List Char
  tmp_directory : List Char
  command : List (List Char)

/-- Model of `Rsyncer.__build_command`. -/
def Rsyncer.buildCommand (rsync_exe remote_location tmp_directory : List Char) :
    List (List Char) :=
  [rsync_exe, "--archive".toList, remote_location, tmp_directory]

/-- Model of `Rsyncer.__init__`: records the executable and remote location,
sets `tmp_directory = normpath(mkdtemp(prefix=...) + '/')`, and builds the
command.  `now` is the `datetime.now()` clock value, `tmpRoot` and `suffix`
are supplied by the OS temp allocator. -/
def Rsyncer.init (rsync_exe remote_location : List Char) (now : Nat)
    (tmpRoot suffix : List Char) : Rsyncer :=
  let tmp := normpathL (mkdtempModel tmpRoot (tmpNameStem now) suffix ++ ['/'])
  { rsync_exe := rsync_exe
    remote_location := remote_location
    tmp_directory := tmp
    command := Rsyncer.buildCommand rsync_exe remote_location tmp }

/-- Abstract filesystem for the cleanup model: the set of existing directory
trees and the set of paths whose deletion fails (permissions). -/
structure FSState where
  dirs : List (List Char)
  locked : List (List Char)

/-- Model of `shutil.rmtree(path, ignore_errors=ie)`: returns the new
filesystem and whether an exception was raised.  Deletion errors (missing
path, undeletable path) raise exactly when `ignore_errors` is false. -/
def rmtree (fs : FSState) (p : List Char) (ignoreErrors : Bool) :
    FSState × Bool :=
  if p ∈ fs.locked then (fs, !ignoreErrors)
  else if p ∈ fs.dirs then
    ({ fs with dirs := fs.dirs.filter (fun q => q ≠ p) }, false)
  else (fs, !ignoreErrors)

/-- Model of `Rsyncer.clean`: `rmtree(self.tmp_directory, ignore_errors=True)`. -/
def Rsyncer.clean (fs : FSState) (tmp_directory : List Char) : FSState × Bool :=
  rmtree fs tmp_directory true

/-- Cutoff string of `Tarrer.__build_command`: `now - timedelta(days=2)`
formatted with `"%Y-%m-%d %H:%M:%S"`. -/
def mtimeCutoff (now : Nat) : List Char :=
  strftimeDashed (now - 2 * 86400)

/-- The filter token `'--newer-mtime="%s"' % cutoff_date` appended when the
backup is not a full backup. -/
def mtimeFilterToken (now : Nat) : List Char :=
  "--newer-mtime=\"".toList ++ mtimeCutoff now ++ ['"']

/-- Output archive file name computed by `Tarrer.__build_command`:
`normpath("power_mezzanine_tester_logs_" + current_time + ".tar.bz2")`, then
the classification marker `FULL_` (taking precedence) or `DAILY_`. -/
def tarFileName (now : Nat) (is_daily do_full_backup : Bool) : List Char :=
  let base := normpathL ("power_mezzanine_tester_logs_".toList
    ++ strftimeYmdHMS now ++ ".tar.bz2".toList)
  if do_full_backup then "FULL_".toList ++ base
  else if is_daily then "DAILY_".toList ++ base
  else base

/-- The `output_file` token: `normpath(self.output_location + "/" + file_name)`. -/
def tarOutputFile (output_location : List Char) (now : Nat)
    (is_daily do_full_backup : Bool) : List Char :=
  normpathL (output_location ++ '/' :: tarFileName now is_daily do_full_backup)

/-- The `base_dir` of `(base_dir, log_dir) = split(self.directory_to_tar)`. -/
def tarBaseDir (directory_to_tar : List Char) : List Char :=
  (splitPathL directory_to_tar).1

/-- The `input_files` token: `normpath(log_dir + "/*.txt")`. -/
def tarInputFiles (directory_to_tar : List Char) : List Char :=
  normpathL ((splitPathL directory_to_tar).2 ++ "/*.txt".toList)

/-- Model of `Tarrer.__build_command`: `cd base_dir && tar` followed by the
modification-time filter unless a full backup was requested, then
`-cjf output_file input_files`. -/
def Tarrer.buildCommand (tar_exe directory_to_tar output_location : List Char)
    (is_daily do_full_backup : Bool) (now : Nat) : List (List Char) :=
  ["cd".toList, tarBaseDir directory_to_tar, "&&".toList, tar_exe]
    ++ (if do_full_backup then [] else [mtimeFilterToken now])
    ++ ["-cjf".toList, tarOutputFile output_location now is_daily do_full_backup,
        tarInputFiles directory_to_tar]

/-- State of a `Tarrer` object after `__init__`. -/
structure Tarrer where
  tar_exe : List Char
  directory_to_tar : List Char
  output_location : List Char
  is_daily : Bool
  do_full_backup : Bool
  command : List (List Char)

/-- Model of `Tarrer.__init__`, which stores its arguments and immediately
builds the command at the construction-time clock value `now`. -/
def Tarrer.init (tar_exe directory_to_tar output_location : List Char)
    (is_daily do_full_backup : Bool) (now : Nat) : Tarrer :=
  { tar_exe := tar_exe
    directory_to_tar := directory_to_tar
    output_location := output_location
    is_daily := is_daily
    do_full_backup := do_full_backup
    command := Tarrer.buildCommand tar_exe directory_to_tar output_location
      is_daily do_full_backup now }

/-- Observable filesystem/process effects of the `__main__` block, in program
order. -/
inductive Eff where
  | tempDirCreated
  | rsyncRun
  | tarRun
  | cleanRun
  deriving DecidableEq

/-- How the process ends: normal termination, `sys.exit(msg)` on a missing
tool (exit status 1), or an uncaught exception propagating out (also a
non-zero process status). -/
inductive ExitKind where
  | normal
  | toolMissing (msg : List Char)
  | uncaught
  deriving DecidableEq

/-- Process exit status for each `ExitKind`. -/
def ExitKind.code : ExitKind → Nat
  | .normal => 0
  | .toolMissing _ => 1
  | .uncaught => 1

/-- Number of staging-directory deletions in an effect trace. -/
def cleanCount : List Eff → Nat
  | [] => 0
  | Eff.cleanRun :: rest => cleanCount rest + 1
  | _ :: rest => cleanCount rest

/-- Model of the `__main__` block: look up `rsync` and `tar` (the lookup
results are inputs), exit with a message if either is missing, otherwise
construct the `Rsyncer` (which creates the temp directory), construct the
`Tarrer`, run both, and clean up.  `archiveRaises` says whether
`tarrer.run()` raises an exception; in that case the exception propagates
and the statements after it do not execute.  A non-zero child exit status
does not raise (`subprocess.call` just returns it), so it stays on the
normal path. -/
def mainModel (rsyncExeLookup tarExeLookup : Option (List Char))
    (archiveRaises : Bool) : List Eff × ExitKind :=
  match rsyncExeLookup with
  | none => ([], ExitKind.toolMissing "Can not find rsync.".toList)
  | some _ =>
    match tarExeLookup with
    | none => ([], ExitKind.toolMissing "Can not find tar.".toList)
    | some _ =>
      if archiveRaises then
        ([Eff.tempDirCreated, Eff.rsyncRun, Eff.tarRun], ExitKind.uncaught)
      else
        ([Eff.tempDirCreated, Eff.rsyncRun, Eff.tarRun, Eff.cleanRun],
          ExitKind.normal)

/-! ### Helper lemmas about the string and path models -/

theorem startsWithTok_append : ∀ (p rest : List Char),
    startsWithTok p (p ++ rest) = true := by
  intro p
  induction p with
  | nil => intro rest; rfl
  | cons a p ih => intro rest; simp [startsWithTok, ih rest]

theorem digitChar_mem (n : Nat) : digitChar n ∈ "0123456789".toList := by
  unfold digitChar
  split_ifs <;> decide

theorem natDigitsCore_mem :
    ∀ fuel n, ∀ c ∈ natDigitsCore fuel n, c ∈ "0123456789".toList := by
  intro fuel
  induction fuel with
  | zero => intro n c hc; simp [natDigitsCore] at hc
  | succ f ih =>
    intro n c hc
    by_cases h : n < 10
    · simp [natDigitsCore, h] at hc
      subst hc
      exact digitChar_mem n
    · simp [natDigitsCore, h] at hc
      rcases hc with hc | hc
      · exact ih _ _ hc
      · subst hc
        exact digitChar_mem _

theorem padZ_mem (w n : Nat) : ∀ c ∈ padZ w n, c ∈ "0123456789".toList := by
  intro c hc
  simp only [padZ] at hc
  rcases List.mem_append.mp hc with hc | hc
  · have := List.eq_of_mem_replicate hc
    subst this
    decide
  · exact natDigitsCore_mem _ _ c hc

theorem strftimeYmdHMS_mem (t : Nat) :
    ∀ c ∈ strftimeYmdHMS t, c ∈ "0123456789".toList := by
  intro c hc
  unfold strftimeYmdHMS at hc
  rcases hceq : civilFields t with ⟨y, mo, d, h, mi, s⟩
  rw [hceq] at hc
  simp only [List.mem_append] at hc
  rcases hc with ((((hc | hc) | hc) | hc) | hc) | hc <;> exact padZ_mem _ _ c hc

theorem strftimeYmdHMS_no_slash (t : Nat) : '/' ∉ strftimeYmdHMS t := by
  intro h
  have := strftimeYmdHMS_mem t '/' h
  revert this
  decide

theorem space_mem_strftimeDashed (t : Nat) : ' ' ∈ strftimeDashed t := by
  unfold strftimeDashed
  rcases hceq : civilFields t with ⟨y, mo, d, h, mi, s⟩
  simp

theorem splitOn_of_not_mem {c : Char} :
    ∀ {s : List Char}, c ∉ s → splitOn c s = [s] := by
  intro s
  induction s with
  | nil => intro _; rfl
  | cons x xs ih =>
    intro h
    simp only [List.mem_cons, not_or] at h
    have hx : ¬ x = c := fun e => h.1 e.symm
    simp [splitOn, hx, ih h.2]

theorem splitOn_append {c : Char} :
    ∀ {a : List Char} (b : List Char), c ∉ a →
      splitOn c (a ++ c :: b) = a :: splitOn c b := by
  intro a
  induction a with
  | nil => intro b _; simp [splitOn]
  | cons x xs ih =>
    intro b h
    simp only [List.mem_cons, not_or] at h
    have hx : ¬ x = c := fun e => h.1 e.symm
    have hrec := ih b h.2
    simp [splitOn, hx, hrec]

theorem cis_eq_zero {s : List Char} (h : s.take 1 ≠ ['/']) :
    countInitialSlashes s = 0 := by
  have h3 : s.take 3 ≠ ['/', '/', '/'] := by
    intro e
    apply h
    have h13 : (s.take 3).take 1 = s.take 1 := by
      rw [List.take_take]
      norm_num
    rw [← h13, e]
    decide
  have h2 : s.take 2 ≠ ['/', '/'] := by
    intro e
    apply h
    have h12 : (s.take 2).take 1 = s.take 1 := by
      rw [List.take_take]
      norm_num
    rw [← h12, e]
    decide
  unfold countInitialSlashes
  rw [if_neg h3, if_neg h2, if_neg h]

theorem cis_eq_one {x : Char} (s : List Char) (hx : x ≠ '/') :
    countInitialSlashes ('/' :: x :: s) = 1 := by
  have h3 : ('/' :: x :: s).take 3 ≠ ['/', '/', '/'] := by
    cases s <;> simp [hx]
  have h2 : ('/' :: x :: s).take 2 ≠ ['/', '/'] := by
    intro e
    rw [show ('/' :: x :: s).take 2 = ['/', x] from rfl] at e
    simp at e
    exact hx e
  unfold countInitialSlashes
  rw [if_neg h3, if_neg h2,
    if_pos (show ('/' :: x :: s).take 1 = ['/'] from rfl)]

theorem addComp_nil_comp (isl : Nat) (acc : List (List Char)) :
    addComp isl acc [] = acc := by
  simp [addComp]

theorem addComp_app (isl : Nat) (acc : List (List Char)) (comp : List Char)
    (h1 : comp ≠ []) (h2 : comp ≠ ['.'])
    (h3 : comp ≠ ['.', '.'] ∨ (isl = 0 ∧ acc = [])) :
    addComp isl acc comp = acc ++ [comp] := by
  unfold addComp
  rw [if_neg (by simp [h1, h2]), if_pos]
  rcases h3 with h | h
  · exact Or.inl h
  · exact Or.inr (Or.inl h)

theorem intercalate_single (a : List Char) :
    List.intercalate ['/'] [a] = a := by
  simp [List.intercalate]

theorem intercalate_pair (a b : List Char) :
    List.intercalate ['/'] [a, b] = a ++ '/' :: b := by
  simp [List.intercalate, List.intersperse]

theorem normpathL_plain {s : List Char} (h0 : s ≠ []) (h1 : '/' ∉ s)
    (h2 : s ≠ ['.']) : normpathL s = s := by
  have hsp : splitOn '/' s = [s] := splitOn_of_not_mem h1
  have hcis : countInitialSlashes s = 0 := by
    apply cis_eq_zero
    intro e
    apply h1
    have hm : '/' ∈ s.take 1 := by rw [e]; decide
    exact List.take_subset _ _ hm
  unfold normpathL
  rw [if_neg h0]
  simp only [hcis, hsp, List.foldl_cons, List.foldl_nil]
  rw [addComp_app 0 [] s h0 h2 (Or.inr ⟨rfl, rfl⟩)]
  simp only [List.nil_append, intercalate_single, List.replicate]
  rw [if_neg h0]

theorem normpathL_glob {leaf : List Char} (h1 : '/' ∉ leaf)
    (h2 : leaf ≠ ['.']) :
    normpathL (leaf ++ "/*.txt".toList) = leaf ++ "/*.txt".toList := by
  rcases leaf with _ | ⟨x, xs⟩
  · decide
  · have hx : x ≠ '/' := by
      intro e
      subst e
      exact h1 (List.mem_cons_self _ _)
    have hxs : '/' ∉ xs := fun hm => h1 (List.mem_cons_of_mem _ hm)
    have hglob : "/*.txt".toList = '/' :: "*.txt".toList := rfl
    have hne : (x :: xs) ++ "/*.txt".toList ≠ [] := by simp
    have hcis : countInitialSlashes ((x :: xs) ++ "/*.txt".toList) = 0 := by
      apply cis_eq_zero
      rw [List.cons_append]
      intro e
      rw [show ((x :: (xs ++ "/*.txt".toList)).take 1) = [x] from rfl] at e
      simp at e
      exact hx e
    have hsp : splitOn '/' ((x :: xs) ++ "/*.txt".toList)
        = [x :: xs, "*.txt".toList] := by
      rw [hglob, splitOn_append _ h1,
        splitOn_of_not_mem (by decide : '/' ∉ "*.txt".toList)]
    have hfold : List.foldl (addComp 0) [] [x :: xs, "*.txt".toList]
        = [x :: xs, "*.txt".toList] := by
      simp only [List.foldl_cons, List.foldl_nil]
      rw [addComp_app 0 [] (x :: xs) (by simp) h2 (Or.inr ⟨rfl, rfl⟩)]
      simp only [List.nil_append]
      rw [addComp_app 0 [x :: xs] "*.txt".toList (by decide) (by decide)
        (Or.inl (by decide))]
      rfl
    unfold normpathL
    rw [if_neg hne]
    simp only [hcis, hsp]
    rw [hfold, intercalate_pair]
    simp only [List.replicate, List.nil_append]
    rw [if_neg (by simp)]
    rw [hglob]

theorem normpathL_rooted {r name : List Char} (hr : plainComp r)
    (hn : plainComp name) :
    normpathL (('/' :: r) ++ ('/' :: name) ++ ['/'])
      = ('/' :: r) ++ ('/' :: name) := by
  rcases hr with ⟨hr0, hr1, hr2, hr3⟩
  rcases hn with ⟨hn0, hn1, hn2, hn3⟩
  rcases r with _ | ⟨x, xs⟩
  · exact absurd rfl hr0
  · have hx : x ≠ '/' := by
      intro e
      subst e
      exact hr1 (List.mem_cons_self _ _)
    have hshape : (('/' :: x :: xs) ++ ('/' :: name) ++ ['/'])
        = '/' :: x :: (xs ++ ('/' :: (name ++ '/' :: []))) := by
      simp [List.append_assoc]
    have hne : (('/' :: x :: xs) ++ ('/' :: name) ++ ['/']) ≠ [] := by simp
    have hcis : countInitialSlashes (('/' :: x :: xs) ++ ('/' :: name) ++ ['/'])
        = 1 := by
      rw [hshape]
      exact cis_eq_one _ hx
    have hsp : splitOn '/' (('/' :: x :: xs) ++ ('/' :: name) ++ ['/'])
        = [[], x :: xs, name, []] := by
      rw [hshape]
      rw [show ('/' :: x :: (xs ++ ('/' :: (name ++ '/' :: []))))
        = '/' :: ((x :: xs) ++ ('/' :: (name ++ '/' :: []))) from rfl]
      rw [show splitOn '/' ('/' :: ((x :: xs) ++ ('/' :: (name ++ '/' :: []))))
        = [] :: splitOn '/' ((x :: xs) ++ ('/' :: (name ++ '/' :: [])))
        from by simp [splitOn]]
      rw [splitOn_append _ hr1]
      rw [splitOn_append _ hn1]
      rfl
    have hfold : List.foldl (addComp 1) [] [[], x :: xs, name, []]
        = [x :: xs, name] := by
      simp only [List.foldl_cons, List.foldl_nil]
      rw [addComp_nil_comp 1 []]
      rw [addComp_app 1 [] (x :: xs) (by simp) hr2 (Or.inl hr3)]
      simp only [List.nil_append]
      rw [addComp_app 1 [x :: xs] name hn0 hn2 (Or.inl hn3)]
      rw [addComp_nil_comp]
      rfl
    unfold normpathL
    rw [if_neg hne]
    simp only [hcis, hsp]
    rw [hfold, intercalate_pair]
    rw [if_neg (by simp)]
    simp

theorem splitPathL_snd_no_slash (p : List Char) : '/' ∉ (splitPathL p).2 := by
  intro h
  simp only [splitPathL] at h
  rw [List.mem_reverse] at h
  have := List.mem_takeWhile_imp h
  simp at this

/-! ### Claim theorems -/

/-- C1, counterexample: on the exit path where `tarrer.run()` raises, the
staging directory is never deleted — `rsyncer.clean()` is the last statement
of the straight-line `__main__` block and is skipped when the archive step
raises, so deletion does not happen on every exit path. -/
theorem c1_counterexample :
    Eff.cleanRun ∉ (mainModel (some "rsync".toList) (some "tar".toList) true).1
    ∧ (mainModel (some "rsync".toList) (some "tar".toList) true).2
        = ExitKind.uncaught := by
  decide

/-- C1, amended: after both tools are found, the staging directory is deleted
exactly once on the exit path where the archive step completes without
raising (whatever its child exit status), and zero times on the exit path
where the archive step raises. -/
theorem c1_cleanup (rsyncExe tarExe : List Char) (archiveRaises : Bool) :
    cleanCount (mainModel (some rsyncExe) (some tarExe) archiveRaises).1
      = (if archiveRaises then 0 else 1) := by
  cases archiveRaises <;> rfl

/-- C4: for every executable, remote location and temp-allocator outcome, the
constructed sync command is exactly the 4-token sequence
`[rsync_exe, "--archive", remote_location, tmp_directory]`. -/
theorem c4_rsync_command (rsync_exe remote_location : List Char) (now : Nat)
    (tmpRoot suffix : List Char) :
    (Rsyncer.init rsync_exe remote_location now tmpRoot suffix).command
      = [rsync_exe, "--archive".toList, remote_location,
          (Rsyncer.init rsync_exe remote_location now tmpRoot suffix).tmp_directory]
    ∧ (Rsyncer.init rsync_exe remote_location now tmpRoot suffix).command.length
        = 4 :=
  ⟨rfl, rfl⟩

/-- C7: if either executable lookup fails, the process performs no filesystem
effect at all (in particular no staging directory is created) and exits with
a message and a non-zero status. -/
theorem c7_missing_tool (rsyncLookup tarLookup : Option (List Char))
    (archiveRaises : Bool) (h : rsyncLookup = none ∨ tarLookup = none) :
    (mainModel rsyncLookup tarLookup archiveRaises).1 = []
    ∧ (mainModel rsyncLookup tarLookup archiveRaises).2.code ≠ 0
    ∧ ∃ msg, (mainModel rsyncLookup tarLookup archiveRaises).2
        = ExitKind.toolMissing msg := by
  rcases h with h | h
  · subst h
    exact ⟨rfl, by simp [mainModel, ExitKind.code], ⟨_, rfl⟩⟩
  · subst h
    rcases rsyncLookup with _ | e
    · exact ⟨rfl, by simp [mainModel, ExitKind.code], ⟨_, rfl⟩⟩
    · exact ⟨rfl, by simp [mainModel, ExitKind.code], ⟨_, rfl⟩⟩

/-- C7, witness at a concrete input: `rsync` missing, `tar` found. -/
theorem c7_missing_tool_witness :
    (mainModel none (some "tar".toList) false).1 = []
    ∧ (mainModel none (some "tar".toList) false).2.code ≠ 0
    ∧ ∃ msg, (mainModel none (some "tar".toList) false).2
        = ExitKind.toolMissing msg :=
  c7_missing_tool none (some "tar".toList) false (Or.inl rfl)

/-- C8: `clean()` (an `rmtree` with `ignore_errors=True`) never raises, on
any filesystem state — staging directory present, absent, or undeletable —
and calling it a second time on the same directory also does not raise. -/
theorem c8_clean_idempotent (fs : FSState) (tmp_directory : List Char) :
    (Rsyncer.clean fs tmp_directory).2 = false
    ∧ (Rsyncer.clean (Rsyncer.clean fs tmp_directory).1 tmp_directory).2
        = false := by
  constructor
  · unfold Rsyncer.clean rmtree
    split_ifs <;> rfl
  · unfold Rsyncer.clean rmtree
    split_ifs <;> rfl

/-- C10: both command constructions are deterministic functions of the
constructor arguments and the construction-time clock: equal inputs give
syntactically equal token sequences. -/
theorem c10_deterministic (exe1 exe2 dir1 dir2 out1 out2 : List Char)
    (d1 d2 f1 f2 : Bool) (n1 n2 : Nat)
    (rexe1 rexe2 rem1 rem2 tmp1 tmp2 : List Char)
    (he : exe1 = exe2) (hd : dir1 = dir2) (ho : out1 = out2)
    (hdy : d1 = d2) (hf : f1 = f2) (hn : n1 = n2)
    (hre : rexe1 = rexe2) (hrem : rem1 = rem2) (htmp : tmp1 = tmp2) :
    Tarrer.buildCommand exe1 dir1 out1 d1 f1 n1
        = Tarrer.buildCommand exe2 dir2 out2 d2 f2 n2
    ∧ Rsyncer.buildCommand rexe1 rem1 tmp1
        = Rsyncer.buildCommand rexe2 rem2 tmp2 := by
  subst he hd ho hdy hf hn hre hrem htmp
  exact ⟨rfl, rfl⟩

/-- C10, witness at concrete equal inputs. -/
theorem c10_deterministic_witness :
    Tarrer.buildCommand "tar".toList "/tmp/x".toList "/b".toList false false 0
        = Tarrer.buildCommand "tar".toList "/tmp/x".toList "/b".toList false false 0
    ∧ Rsyncer.buildCommand "rsync".toList "h:/l".toList "/tmp/x".toList
        = Rsyncer.buildCommand "rsync".toList "h:/l".toList "/tmp/x".toList :=
  c10_deterministic _ _ _ _ _ _ _ _ _ _ _ _ _ _ _ _ _ _
    rfl rfl rfl rfl rfl rfl rfl rfl rfl

/-- C3: filename classification precedence — `do_full_backup` forces the
`FULL_` marker regardless of `is_daily`; otherwise `is_daily` gives `DAILY_`;
with both flags false the name is exactly
`power_mezzanine_tester_logs_<YYYYMMDDHHMMSS>.tar.bz2` with no marker. -/
theorem c3_classification (now : Nat) (is_daily : Bool) :
    startsWithTok "FULL_".toList (tarFileName now is_daily true) = true
    ∧ startsWithTok "DAILY_".toList (tarFileName now true false) = true
    ∧ tarFileName now false false
        = "power_mezzanine_tester_logs_".toList ++ strftimeYmdHMS now
            ++ ".tar.bz2".toList := by
  have h28 : ("power_mezzanine_tester_logs_".toList).length = 28 := by decide
  have h8 : (".tar.bz2".toList).length = 8 := by decide
  have hlen : 28 ≤ ("power_mezzanine_tester_logs_".toList ++ strftimeYmdHMS now
      ++ ".tar.bz2".toList).length := by
    have e1 : ("power_mezzanine_tester_logs_".toList ++ strftimeYmdHMS now
        ++ ".tar.bz2".toList).length
        = ("power_mezzanine_tester_logs_".toList).length
          + (strftimeYmdHMS now).length + (".tar.bz2".toList).length := by
      rw [List.length_append, List.length_append]
    omega
  have hne : ("power_mezzanine_tester_logs_".toList ++ strftimeYmdHMS now
      ++ ".tar.bz2".toList) ≠ [] := by
    intro e
    rw [e] at hlen
    simp at hlen
  have hdot : ("power_mezzanine_tester_logs_".toList ++ strftimeYmdHMS now
      ++ ".tar.bz2".toList) ≠ ['.'] := by
    intro e
    rw [e] at hlen
    simp at hlen
  have hslash : '/' ∉ ("power_mezzanine_tester_logs_".toList
      ++ strftimeYmdHMS now ++ ".tar.bz2".toList) := by
    intro hm
    rcases List.mem_append.mp hm with hm | hm
    · rcases List.mem_append.mp hm with hm | hm
      · revert hm
        decide
      · exact strftimeYmdHMS_no_slash now hm
    · revert hm
      decide
  have hbase : normpathL ("power_mezzanine_tester_logs_".toList
      ++ strftimeYmdHMS now ++ ".tar.bz2".toList)
      = "power_mezzanine_tester_logs_".toList ++ strftimeYmdHMS now
          ++ ".tar.bz2".toList :=
    normpathL_plain hne hslash hdot
  refine ⟨?_, ?_, ?_⟩
  · simp only [tarFileName, if_pos]
    exact startsWithTok_append _ _
  · simp only [tarFileName, Bool.false_eq_true, if_false, if_pos]
    exact startsWithTok_append _ _
  · simp only [tarFileName, Bool.false_eq_true, if_false]
    exact hbase

/-- C5, counterexample: for the source directory `"/a/."` the leaf component
returned by `split` is `"."`, but the input-pattern token (the command's last
token) is `normpath("./*.txt") = "*.txt"`, not `"./*.txt"` — so the token is
not always the leaf component followed by `/*.txt`. -/
theorem c5_counterexample :
    (splitPathL "/a/.".toList).2 = ['.']
    ∧ (Tarrer.buildCommand "tar".toList "/a/.".toList "/o".toList
        false false 0).getLast?
        ≠ some ((splitPathL "/a/.".toList).2 ++ "/*.txt".toList) := by
  decide

/-- C5, amended: for every source directory whose leaf component (as computed
by `split`) is not the special component `.`, the input-pattern token — the
last token of the archive command — is exactly that leaf followed by
`/*.txt`, independent of the directory's depth; and for every source
directory whatsoever the command begins with `cd <parent> &&`. -/
theorem c5_input_glob (tar_exe directory_to_tar output_location : List Char)
    (is_daily do_full_backup : Bool) (now : Nat) :
    ((splitPathL directory_to_tar).2 ≠ ['.'] →
      tarInputFiles directory_to_tar
        = (splitPathL directory_to_tar).2 ++ "/*.txt".toList)
    ∧ (Tarrer.buildCommand tar_exe directory_to_tar output_location
        is_daily do_full_backup now).take 3
        = ["cd".toList, (splitPathL directory_to_tar).1, "&&".toList]
    ∧ (Tarrer.buildCommand tar_exe directory_to_tar output_location
        is_daily do_full_backup now).getLast?
        = some (tarInputFiles directory_to_tar) := by
  refine ⟨?_, ?_, ?_⟩
  · intro hleaf
    unfold tarInputFiles
    exact normpathL_glob (splitPathL_snd_no_slash _) hleaf
  · cases do_full_backup <;> rfl
  · cases do_full_backup <;> rfl

/-- C5, witness at a concrete input, with the leaf-is-not-dot condition of
the glob conjunct discharged there. -/
theorem c5_input_glob_witness :
    tarInputFiles "/tmp/logs".toList
        = (splitPathL "/tmp/logs".toList).2 ++ "/*.txt".toList
    ∧ (Tarrer.buildCommand "tar".toList "/tmp/logs".toList "/backups".toList
        false false 0).take 3
        = ["cd".toList, (splitPathL "/tmp/logs".toList).1, "&&".toList]
    ∧ (Tarrer.buildCommand "tar".toList "/tmp/logs".toList "/backups".toList
        false false 0).getLast?
        = some (tarInputFiles "/tmp/logs".toList) :=
  ⟨(c5_input_glob "tar".toList "/tmp/logs".toList "/backups".toList
      false false 0).1 (by decide),
    (c5_input_glob "tar".toList "/tmp/logs".toList "/backups".toList
      false false 0).2⟩

/-- C2: when `do_full_backup` is false the archive command contains the
modification-time filter token whose value is the construction-time clock
minus exactly two days, formatted `"%Y-%m-%d %H:%M:%S"`; when
`do_full_backup` is true no token of the command starts with
`--newer-mtime=`, provided none of the other command pieces happens to start
with that string itself.  The clock bound keeps the two-day subtraction
honest in the `Nat` clock model. -/
theorem c2_mtime_filter (tar_exe directory_to_tar output_location : List Char)
    (is_daily : Bool) (now : Nat) (hnow : 2 * 86400 ≤ now)
    (hexe : startsWithTok "--newer-mtime=".toList tar_exe = false)
    (hbase : startsWithTok "--newer-mtime=".toList
      (tarBaseDir directory_to_tar) = false)
    (hout : startsWithTok "--newer-mtime=".toList
      (tarOutputFile output_location now is_daily true) = false)
    (hin : startsWithTok "--newer-mtime=".toList
      (tarInputFiles directory_to_tar) = false) :
    ("--newer-mtime=\"".toList ++ strftimeDashed (now - 2 * 86400) ++ ['"'])
        ∈ Tarrer.buildCommand tar_exe directory_to_tar output_location
            is_daily false now
    ∧ ∀ t ∈ Tarrer.buildCommand tar_exe directory_to_tar output_location
        is_daily true now,
        startsWithTok "--newer-mtime=".toList t = false := by
  constructor
  · exact List.mem_append.mpr (Or.inl (List.mem_append.mpr
      (Or.inr (List.mem_singleton.mpr rfl))))
  · intro t ht
    simp only [Tarrer.buildCommand, List.cons_append, List.nil_append,
      List.append_nil, List.mem_append, List.mem_cons, List.not_mem_nil,
      if_true, or_false, or_assoc] at ht
    rcases ht with rfl | rfl | rfl | rfl | rfl | rfl | rfl
    · decide
    · exact hbase
    · decide
    · exact hexe
    · decide
    · exact hout
    · exact hin

/-- C2, witness at a concrete construction. -/
theorem c2_mtime_filter_witness :
    ("--newer-mtime=\"".toList ++ strftimeDashed (200000 - 2 * 86400) ++ ['"'])
        ∈ Tarrer.buildCommand "tar".toList "/tmp/logs".toList
            "/backups".toList false false 200000
    ∧ ∀ t ∈ Tarrer.buildCommand "tar".toList "/tmp/logs".toList
        "/backups".toList false true 200000,
        startsWithTok "--newer-mtime=".toList t = false :=
  c2_mtime_filter "tar".toList "/tmp/logs".toList "/backups".toList
    false 200000 (by decide) (by decide) (by decide) (by decide) (by decide)

/-- C6: the staging directory stored by the constructor is the temp root
followed by the name `power_mezzanine_tester_logs_<YYYYMMDDHHMMSS>_<suffix>`
— fixed stem, then the construction-time timestamp, then the allocator's
unique suffix — and the stored (normalized) path carries no trailing
separator: `normpath(mkdtemp(...) + '/')` strips the appended slash. -/
theorem c6_staging_dir (rsync_exe remote_location : List Char) (now : Nat)
    (r suffix : List Char) (hr : plainComp r) (hs : plainComp suffix) :
    (Rsyncer.init rsync_exe remote_location now ('/' :: r) suffix).tmp_directory
      = ('/' :: r) ++ ('/' :: (tmpNameStem now ++ suffix))
    ∧ ((Rsyncer.init rsync_exe remote_location now
        ('/' :: r) suffix).tmp_directory).getLast? ≠ some '/' := by
  obtain ⟨hs0, hs1, hs2, hs3⟩ := hs
  have hname : plainComp (tmpNameStem now ++ suffix) := by
    have h28 : ("power_mezzanine_tester_logs_".toList).length = 28 := by decide
    have hlen : 29 ≤ (tmpNameStem now ++ suffix).length := by
      have e1 : (tmpNameStem now ++ suffix).length
          = (tmpNameStem now).length + suffix.length := by
        rw [List.length_append]
      have e2 : (tmpNameStem now).length
          = ("power_mezzanine_tester_logs_".toList).length
            + (strftimeYmdHMS now).length + (['_'] : List Char).length := by
        unfold tmpNameStem
        rw [List.length_append, List.length_append]
      have e3 : (['_'] : List Char).length = 1 := rfl
      omega
    refine ⟨?_, ?_, ?_, ?_⟩
    · intro e
      rw [e] at hlen
      simp at hlen
    · intro hm
      unfold tmpNameStem at hm
      rcases List.mem_append.mp hm with hm | hm
      · rcases List.mem_append.mp hm with hm | hm
        · rcases List.mem_append.mp hm with hm | hm
          · revert hm
            decide
          · exact strftimeYmdHMS_no_slash now hm
        · revert hm
          decide
      · exact hs1 hm
    · intro e
      rw [e] at hlen
      simp at hlen
    · intro e
      rw [e] at hlen
      simp at hlen
  have heq : (Rsyncer.init rsync_exe remote_location now
      ('/' :: r) suffix).tmp_directory
      = ('/' :: r) ++ ('/' :: (tmpNameStem now ++ suffix)) := by
    show normpathL (mkdtempModel ('/' :: r) (tmpNameStem now) suffix ++ ['/'])
      = _
    exact normpathL_rooted hr hname
  refine ⟨heq, ?_⟩
  rw [heq]
  have hshape : ('/' :: r) ++ ('/' :: (tmpNameStem now ++ suffix))
      = (('/' :: r) ++ ('/' :: tmpNameStem now)) ++ suffix := by
    simp [List.append_assoc]
  rw [hshape, List.getLast?_append_of_ne_nil _ hs0,
    List.getLast?_eq_getLast_of_ne_nil hs0]
  intro he
  simp only [Option.some.injEq] at he
  exact hs1 (he ▸ List.getLast_mem hs0)

/-- C6, witness at a concrete construction: temp root `/tmp`, allocator
suffix `abc123`, clock 0. -/
theorem c6_staging_dir_witness :
    (Rsyncer.init "rsync".toList "host:/logs".toList 0
        ('/' :: "tmp".toList) "abc123".toList).tmp_directory
      = ('/' :: "tmp".toList) ++ ('/' :: (tmpNameStem 0 ++ "abc123".toList))
    ∧ ((Rsyncer.init "rsync".toList "host:/logs".toList 0
        ('/' :: "tmp".toList) "abc123".toList).tmp_directory).getLast?
        ≠ some '/' :=
  c6_staging_dir "rsync".toList "host:/logs".toList 0 "tmp".toList
    "abc123".toList ⟨by decide, by decide, by decide, by decide⟩
    ⟨by decide, by decide, by decide, by decide⟩

theorem intercalate_cons_cons (s a b : List Char) (l : List (List Char)) :
    List.intercalate s (a :: b :: l) = a ++ s ++ List.intercalate s (b :: l) := by
  simp [List.intercalate, List.intersperse, List.append_assoc]

theorem intercalate_mem_split {x : List Char} (s : List Char) :
    ∀ {l : List (List Char)}, x ∈ l →
      ∃ A B, List.intercalate s l = A ++ x ++ B := by
  intro l
  induction l with
  | nil => intro h; exact absurd h (List.not_mem_nil x)
  | cons y ys ih =>
    intro h
    rcases List.mem_cons.mp h with rfl | h
    · rcases ys with _ | ⟨z, zs⟩
      · exact ⟨[], [], by simp [List.intercalate]⟩
      · refine ⟨[], s ++ List.intercalate s (z :: zs), ?_⟩
        rw [intercalate_cons_cons]
        simp [List.append_assoc]
    · rcases ys with _ | ⟨z, zs⟩
      · exact absurd h (List.not_mem_nil x)
      · obtain ⟨A, B, hAB⟩ := ih h
        refine ⟨y ++ s ++ A, B, ?_⟩
        rw [intercalate_cons_cons, hAB]
        simp [List.append_assoc]

theorem mtimeFilterToken_length (now : Nat) :
    16 ≤ (mtimeFilterToken now).length := by
  unfold mtimeFilterToken
  rw [List.length_append, List.length_append]
  have h15 : ("--newer-mtime=\"".toList).length = 15 := by decide
  have h1 : (['"'] : List Char).length = 1 := rfl
  omega

theorem short_ne_mtimeFilterToken {l : List Char} (now : Nat)
    (hl : l.length < 16) : l ≠ mtimeFilterToken now := by
  intro e
  have hlen := congrArg List.length e
  have h16 := mtimeFilterToken_length now
  omega

/-- C9: when the backup is not full, the filter is the single token
`--newer-mtime="<cutoff>"` with literal double quotes around the cutoff
value; the cutoff value contains a space, and since `run()` joins the tokens
with single spaces into one shell string, the quoted value survives as a
contiguous `"..."` segment of that string.  The disequality hypotheses say
the other command pieces do not coincide with the filter token. -/
theorem c9_quoted_filter (tar_exe directory_to_tar output_location : List Char)
    (is_daily : Bool) (now : Nat)
    (hexe : tar_exe ≠ mtimeFilterToken now)
    (hbase : tarBaseDir directory_to_tar ≠ mtimeFilterToken now)
    (hout : tarOutputFile output_location now is_daily false
      ≠ mtimeFilterToken now)
    (hin : tarInputFiles directory_to_tar ≠ mtimeFilterToken now) :
    mtimeFilterToken now
        = "--newer-mtime=".toList ++ '"' :: (mtimeCutoff now ++ ['"'])
    ∧ ' ' ∈ mtimeCutoff now
    ∧ (∃ pre post,
        Tarrer.buildCommand tar_exe directory_to_tar output_location
            is_daily false now
          = pre ++ mtimeFilterToken now :: post
        ∧ mtimeFilterToken now ∉ pre ∧ mtimeFilterToken now ∉ post)
    ∧ ∃ before after,
        shellString (Tarrer.buildCommand tar_exe directory_to_tar
            output_location is_daily false now)
          = before ++ ('"' :: (mtimeCutoff now ++ ['"'])) ++ after := by
  have htok : mtimeFilterToken now
      = "--newer-mtime=".toList ++ '"' :: (mtimeCutoff now ++ ['"']) := by
    have hq : "--newer-mtime=\"".toList = "--newer-mtime=".toList ++ ['"'] := by
      decide
    unfold mtimeFilterToken
    rw [hq, List.append_assoc ("--newer-mtime=".toList ++ ['"']),
      List.append_assoc "--newer-mtime=".toList ['"'], List.singleton_append]
  refine ⟨htok, by unfold mtimeCutoff; exact space_mem_strftimeDashed _, ?_, ?_⟩
  · refine ⟨["cd".toList, tarBaseDir directory_to_tar, "&&".toList, tar_exe],
      ["-cjf".toList, tarOutputFile output_location now is_daily false,
        tarInputFiles directory_to_tar], rfl, ?_, ?_⟩
    · intro hm
      simp only [List.mem_cons, List.not_mem_nil, or_false] at hm
      rcases hm with h | h | h | h
      · exact short_ne_mtimeFilterToken now (by decide) h.symm
      · exact hbase h.symm
      · exact short_ne_mtimeFilterToken now (by decide) h.symm
      · exact hexe h.symm
    · intro hm
      simp only [List.mem_cons, List.not_mem_nil, or_false] at hm
      rcases hm with h | h | h
      · exact short_ne_mtimeFilterToken now (by decide) h.symm
      · exact hout h.symm
      · exact hin h.symm
  · have hmem : mtimeFilterToken now
        ∈ Tarrer.buildCommand tar_exe directory_to_tar output_location
            is_daily false now :=
      List.mem_append.mpr (Or.inl (List.mem_append.mpr
        (Or.inr (List.mem_singleton.mpr rfl))))
    obtain ⟨A, B, hAB⟩ := intercalate_mem_split [' '] hmem
    refine ⟨A ++ "--newer-mtime=".toList, B, ?_⟩
    rw [shellString, hAB, htok,
      ← List.append_assoc A "--newer-mtime=".toList
        ('"' :: (mtimeCutoff now ++ ['"']))]

/-- C9, witness at a concrete construction. -/
theorem c9_quoted_filter_witness :
    mtimeFilterToken 200000
        = "--newer-mtime=".toList ++ '"' :: (mtimeCutoff 200000 ++ ['"'])
    ∧ ' ' ∈ mtimeCutoff 200000
    ∧ (∃ pre post,
        Tarrer.buildCommand "tar".toList "/tmp/logs".toList "/backups".toList
            false false 200000
          = pre ++ mtimeFilterToken 200000 :: post
        ∧ mtimeFilterToken 200000 ∉ pre ∧ mtimeFilterToken 200000 ∉ post)
    ∧ ∃ before after,
        shellString (Tarrer.buildCommand "tar".toList "/tmp/logs".toList
            "/backups".toList false false 200000)
          = before ++ ('"' :: (mtimeCutoff 200000 ++ ['"'])) ++ after :=
  c9_quoted_filter "tar".toList "/tmp/logs".toList "/backups".toList
    false 200000 (by decide) (by decide) (by decide) (by decide)
